import Mathlib

/-!
Verification of the eReader PDB decoder (erdr2pml.py).

This file gives a shallow embedding of the pure core of the decoder:
byte strings are modelled as `List Nat` (one entry per byte), Python
slicing as `pySlice`/`lastN`, `struct.unpack` as fallible `unpack*`
functions (an `Option` that is `none` exactly when the byte count is
wrong, as `struct.error` would be raised), and runtime failures
(`ValueError`, `AssertionError`, `struct.error`) as an explicit error
type `Err`.  The external DES cipher (`Des(key).decrypt`), the SHA-1
digest (`hashlib.sha1(...).digest()`) and zlib inflation
(`zlib.decompress`) are injected as opaque function parameters, exactly
as the specification treats them (external "Cipher Capability").
-/

/-- Python slice `l[a:b]` for `0 ≤ a ≤ b`: drop `a` elements, keep `b - a`. -/
def pySlice (l : List Nat) (a b : Nat) : List Nat := (l.drop a).take (b - a)

/-- Python slice `l[-n:]`: the last `n` elements (the whole list when it is shorter). -/
def lastN (n : Nat) (l : List Nat) : List Nat := l.drop (l.length - n)

/-- The byte string of an ASCII string literal. -/
def strB (s : String) : List Nat := s.toList.map Char.toNat

/-- Model of `struct.unpack('>H', l)`: big-endian 16-bit word from exactly two bytes. -/
def unpack16 (l : List Nat) : Option Nat :=
  match l with
  | [a, b] => some (a * 256 + b)
  | _ => none

/-- Model of `struct.unpack('>L', l)`: big-endian 32-bit word from exactly four bytes. -/
def unpack32 (l : List Nat) : Option Nat :=
  match l with
  | [a, b, c, d] => some (a * 16777216 + b * 65536 + c * 256 + d)
  | _ => none

/-- Model of `struct.unpack('>LL', l)`: two big-endian 32-bit words from exactly eight bytes. -/
def unpack2x32 (l : List Nat) : Option (Nat × Nat) :=
  match l with
  | [a, b, c, d, e, f, g, h] =>
      some (a * 16777216 + b * 65536 + c * 256 + d,
            e * 16777216 + f * 65536 + g * 256 + h)
  | _ => none

/-- Model of `struct.unpack('>LBBBB', l)` followed by the packing
`flags, val = a1, a2<<16|a3<<8|a4` done in `Sectionizer.__init__`. -/
def unpackDirEntry (l : List Nat) : Option (Nat × Nat × Nat) :=
  match l with
  | [o1, o2, o3, o4, a1, a2, a3, a4] =>
      some (o1 * 16777216 + o2 * 65536 + o3 * 256 + o4,
            a1, a2 <<< 16 ||| a3 <<< 8 ||| a4)
  | _ => none

/-- Model of `struct.pack('>L', v)`: the four big-endian bytes of a 32-bit word. -/
def beBytes32 (v : Nat) : List Nat :=
  [v / 16777216 % 256, v / 65536 % 256, v / 256 % 256, v % 256]

/-- Runtime failures of the decoder, one constructor per distinct raise site
(`ValueError`, `AssertionError` and `struct.error` in the Python source).
`invalidFileFormat` is the spec's FormatError at the identifier check,
`badVersion1`/`badCookie2`/`badDrmSub3` are the numbered
"incorrect eReader version" FormatErrors, `incompatible` is the spec's
UnsupportedFeatureError ("incompatible eReader file") and `credential`
is the spec's CredentialError ("Incorrect Name and/or Credit Card"). -/
inductive Err where
  | invalidFileFormat
  | badVersion1
  | badCookie2
  | badDrmSub3
  | incompatible
  | credential
  | assertFailed
  | structError
  deriving DecidableEq

instance : Inhabited Err := ⟨Err.structError⟩

/-- Lift a `struct.unpack` result into the error monad (`struct.error` on `none`). -/
def liftStruct {α : Type} (o : Option α) : Except Err α :=
  match o with
  | some a => Except.ok a
  | none => Except.error Err.structError

/-- Transcription of `fixByte` (line 180): XOR `b` with the XOR of its eight
left shifts and the constant `0x80`, masked to the top bit.  Only bit 7 of
`b` can change. -/
def fixByte (b : Nat) : Nat :=
  b ^^^ ((b ^^^ (b <<< 1) ^^^ (b <<< 2) ^^^ (b <<< 3) ^^^ (b <<< 4) ^^^
         (b <<< 5) ^^^ (b <<< 6) ^^^ (b <<< 7) ^^^ 0x80) &&& 0x80)

/-- Transcription of `fixKey` (line 178): apply `fixByte` to every byte of the key. -/
def fixKey (key : List Nat) : List Nat := key.map fixByte

/-- Transcription of `deXOR` (lines 183-191): XOR `text` against `table`
read cyclically from start position `sp`, wrapping when the cursor reaches
`len(table)`.  Returns `none` when Python would raise `IndexError`, i.e.
when the cursor is not a valid index of `table`. -/
def deXOR (text : List Nat) (sp : Nat) (table : List Nat) : Option (List Nat) :=
  match text with
  | [] => some []
  | c :: rest =>
      match table[sp]? with
      | none => none
      | some tb =>
          let j := sp + 1
          let j := if j = table.length then 0 else j
          (deXOR rest j table).map (fun r => (tb ^^^ c) :: r)

/-- Write position of the `i`-th input byte in `unshuff` (line 213):
the cursor starts at 0 and advances by `shuf` modulo the length before
each write, so byte `i` lands at `(i+1)*shuf mod n`. -/
def unshuffPos (n shuf i : Nat) : Nat := ((i + 1) * shuf) % n

/-- The scatter array built by the `unshuff` loop (lines 210-214): start from
`len(data)` empty cells and write `data[i]` at `unshuffPos` of `i`. -/
def unshuffArr (data : List Nat) (shuf : Nat) : List (Option Nat) :=
  (List.range data.length).foldl
    (fun r i => r.set (unshuffPos data.length shuf i) (some (data.getD i 0)))
    (List.replicate data.length none)

/-- Transcription of `unshuff` (lines 209-216).  The `"".join(r)` of the
Python code drops cells never written, and the `assert` demands the joined
length equal the input length; `none` models the `AssertionError`. -/
def unshuff (data : List Nat) (shuf : Nat) : Option (List Nat) :=
  let joined := (unshuffArr data shuf).filterMap id
  if joined.length = data.length then some joined else none

/-- ASCII lower-casing of one byte, as Python `str.lower` does per character. -/
def pyLower (c : Nat) : Nat := if 65 ≤ c ∧ c ≤ 90 then c + 32 else c

/-- Transcription of `fixUsername` (lines 219-224): lower-case the name and
keep only the characters in `a`..`z` and `0`..`9`. -/
def fixUsername (s : List Nat) : List Nat :=
  (s.map pyLower).filter (fun c => (97 ≤ c ∧ c ≤ 122) ∨ (48 ≤ c ∧ c ≤ 57))

/-- One bit step of CRC-32 (polynomial 0xEDB88320), as computed by
`binascii.crc32`. -/
def crcStep (c : Nat) : Nat :=
  if c % 2 = 1 then (c / 2) ^^^ 0xEDB88320 else c / 2

/-- Eight CRC-32 bit steps. -/
def crcStep8 (c : Nat) : Nat :=
  crcStep (crcStep (crcStep (crcStep (crcStep (crcStep (crcStep (crcStep c)))))))

/-- Model of `binascii.crc32` (zlib CRC-32): initial value 0xFFFFFFFF, one
byte XORed in per step, final complement. -/
def crc32 (data : List Nat) : Nat :=
  (data.foldl (fun c b => crcStep8 (c ^^^ b)) 0xFFFFFFFF) ^^^ 0xFFFFFFFF

/-- Transcription of the reader key construction (line 226):
`struct.pack('>LL', crc32(fixUsername(username)) & 0xffffffff, crc32(creditcard[-8:]) & 0xffffffff)`. -/
def userKey (username creditcard : List Nat) : List Nat :=
  beBytes32 (crc32 (fixUsername username) &&& 0xffffffff) ++
  beBytes32 (crc32 (lastN 8 creditcard) &&& 0xffffffff)

/-- Expand every byte of `l` into the list `f` assigns to it, in order.
This is the shape of a Python `str.replace` with a one-character pattern. -/
def expandEach (l : List Nat) (f : Nat → List Nat) : List Nat :=
  match l with
  | [] => []
  | c :: t => f c ++ expandEach t f

/-- Model of `str.replace(chr(b), rep)` for a single-byte pattern. -/
def listReplace (l : List Nat) (b : Nat) (rep : List Nat) : List Nat :=
  expandEach l (fun c => if c = b then rep else [c])

/-- The PML replacement string built by the format `'\\a%03d' % k`:
a backslash, the letter `a` and three decimal digits. -/
def escSeq (k : Nat) : List Nat :=
  [92, 97, 48 + k / 100, 48 + k / 10 % 10, 48 + k % 10]

/-- Transcription of `cleanPML` (lines 401-407): for each `k` in 128..255
replace every occurrence of byte `k` by its `'\\a%03d'` escape. -/
def cleanPML (pml : List Nat) : List Nat :=
  ((List.range 128).map (fun j => 128 + j)).foldl
    (fun acc k => listReplace acc k (escSeq k)) pml

/-- Document subtype: standard book ("PNRdPPrs") or dictionary ("PDctPPrs"). -/
inductive BkType where
  | book
  | dict
  deriving DecidableEq

instance : Inhabited BkType := ⟨BkType.book⟩

/-- The standard container identifier at header offset 0x3C. -/
def pnrdTag : List Nat := strB "PNRdPPrs"

/-- The alternate (dictionary) container identifier. -/
def pdctTag : List Nat := strB "PDctPPrs"

/-- State built by `Sectionizer.__init__` (lines 148-162). -/
structure SectState where
  contents : List Nat
  header : List Nat
  numSections : Nat
  bkType : BkType
  sections : List (Nat × Nat × Nat)

/-- Parse of the record directory (lines 158-162): one 8-byte entry per record
starting at byte 78; `struct.error` if an entry is cut short. -/
def parseDirectory (contents : List Nat) (num : Nat) : Except Err (List (Nat × Nat × Nat)) :=
  (List.range num).mapM
    (fun i => liftStruct (unpackDirEntry (pySlice contents (78 + i * 8) (78 + i * 8 + 8))))

/-- Transcription of `Sectionizer.__init__` (lines 148-162): read the record
count at bytes 76-77, check the 8-byte identifier at header offset 0x3C
(accepting the alternate tag as the dictionary subtype), then parse the
record directory.  No cipher is involved: the function takes none. -/
def sectionizerInit (contents ident : List Nat) : Except Err SectState := do
  let header := pySlice contents 0 72
  let numSections ← liftStruct (unpack16 (pySlice contents 76 78))
  let bk ←
    if pySlice header 0x3C (0x3C + 8) ≠ ident then
      if pySlice header 0x3C (0x3C + 8) = pdctTag then pure BkType.dict
      else Except.error Err.invalidFileFormat
    else pure BkType.book
  let sections ← parseDirectory contents numSections
  pure ⟨contents, header, numSections, bk, sections⟩

/-- Fields extracted by `EreaderProcessor.__init__` up to line 271: the raw
record 1 (`self.data`), the decrypted and unshuffled cookie `r`, and the
per-section layout values read from it. -/
structure CookieFields where
  version : Nat
  data : List Nat
  r : List Nat
  drmSubVersion : Nat
  numTextPages : Int
  numImagePages : Nat
  firstImagePage : Nat
  numFootnotePages : Nat
  firstFootnotePage : Int
  numSidebarPages : Nat
  firstSidebarPage : Int
  xortableOffset : Nat
  xortableSize : Nat
  xortable : List Nat
  flags : Nat
  deriving DecidableEq

instance : Inhabited CookieFields :=
  ⟨⟨0, [], [], 0, 0, 0, 0, 0, -1, 0, -1, 0, 0, [], 0⟩⟩

/-- The required feature flags `(1<<9) | (1<<7) | (1<<10)` of line 272. -/
def reqdFlags : Nat := 1664

/-- Transcription of `EreaderProcessor.__init__` lines 196-271: version check
on record 0, decryption of the footer of record 1 with the key derived from
its first 8 bytes, bounds check of the shuffle constant and cookie size,
decryption and unshuffling of the cookie, and extraction of the layout
fields (including, for version 272, the XOR table taken from the raw
record 1).  `desD` is the injected DES capability `fun key data => plaintext`. -/
def cookieParse (desD : List Nat → List Nat → List Nat) (bkType : BkType)
    (sectRead : Int → List Nat) : Except Err CookieFields := do
  let data0 := sectRead 0
  let version ← liftStruct (unpack16 (pySlice data0 0 2))
  if version ≠ 272 ∧ version ≠ 260 ∧ version ≠ 259 then Except.error Err.badVersion1
  let data := sectRead 1
  let key1 := fixKey (pySlice data 0 8)
  let footer := desD key1 (lastN 8 data)
  let sf ← liftStruct (unpack2x32 footer)
  let cookieShuf := sf.1
  let cookieSize := sf.2
  if cookieShuf < 3 ∨ cookieShuf > 0x14 ∨ cookieSize < 0xf0 ∨ cookieSize > 0x200 then
    Except.error Err.badCookie2
  let inp := desD key1 (lastN cookieSize data)
  let r ←
    match unshuff (inp.take (inp.length - 8)) cookieShuf with
    | some r => pure r
    | none => Except.error Err.assertFailed
  let drmSubVersion ← liftStruct (unpack16 (pySlice r 0 2))
  let ntp ← liftStruct (unpack16 (pySlice r 2 4))
  let numImagePages ← liftStruct (unpack16 (pySlice r 26 28))
  let firstImagePage ← liftStruct (unpack16 (pySlice r 24 26))
  let ext ←
    if version = 272 then do
      let nf ← liftStruct (unpack16 (pySlice r 46 48))
      let ff ← liftStruct (unpack16 (pySlice r 44 46))
      let sb ←
        if bkType = BkType.book then do
          let ns ← liftStruct (unpack16 (pySlice r 38 40))
          let fs ← liftStruct (unpack16 (pySlice r 36 38))
          pure (ns, (fs : Int))
        else pure (0, (-1 : Int))
      let xo ← liftStruct (unpack16 (pySlice r 40 42))
      let xs ← liftStruct (unpack16 (pySlice r 42 44))
      pure (nf, (ff : Int), sb.1, sb.2, xo, xs, pySlice data xo (xo + xs))
    else pure (0, (-1 : Int), 0, (-1 : Int), 0, 0, ([] : List Nat))
  let flags ← liftStruct (unpack32 (pySlice r 4 8))
  pure ⟨version, data, r, drmSubVersion, (ntp : Int) - 1, numImagePages, firstImagePage,
        ext.1, ext.2.1, ext.2.2.1, ext.2.2.2.1, ext.2.2.2.2.1, ext.2.2.2.2.2.1,
        ext.2.2.2.2.2.2, flags⟩

/-- The revision-resolved offsets of the encrypted content key and its SHA-1
digest inside the cookie (lines 277-293), including the drm sub-version
checks ("error 3").  The final branch is unreachable: `cookieParse` admits
only versions 259, 260 and 272. -/
def resolveKeyFields (cf : CookieFields) : Except Err (List Nat × List Nat) :=
  if cf.version = 259 then
    if cf.drmSubVersion ≠ 7 then Except.error Err.badDrmSub3
    else pure (pySlice cf.r 64 72, pySlice cf.r 44 64)
  else if cf.version = 260 then
    if cf.drmSubVersion ≠ 13 ∧ cf.drmSubVersion ≠ 11 then Except.error Err.badDrmSub3
    else if cf.drmSubVersion = 13 then pure (pySlice cf.r 44 52, pySlice cf.r 52 72)
    else pure (pySlice cf.r 64 72, pySlice cf.r 44 64)
  else if cf.version = 272 then
    pure (pySlice cf.r 172 180, pySlice cf.r 56 76)
  else Except.error Err.badVersion1

/-- Transcription of lines 271-296: require the three feature-flag bits,
derive the reader key from the credentials, decrypt the embedded content
key at the revision-resolved offset and validate it against the stored
SHA-1 digest (`sha1F` is the injected digest capability).  Returns the
decrypted content key. -/
def keyValidate (desD : List Nat → List Nat → List Nat) (sha1F : List Nat → List Nat)
    (username creditcard : List Nat) (cf : CookieFields) : Except Err (List Nat) := do
  if cf.flags &&& reqdFlags ≠ reqdFlags then Except.error Err.incompatible
  let key2 := fixKey (userKey username creditcard)
  let ek ← resolveKeyFields cf
  let contentKey := desD key2 ek.1
  if sha1F contentKey ≠ ek.2 then Except.error Err.credential
  pure contentKey

/-- The state a fully constructed `EreaderProcessor` carries to `getText`. -/
structure ProcState where
  cf : CookieFields
  contentKey : List Nat

/-- Transcription of `EreaderProcessor.__init__` as a whole: cookie parsing
followed by key validation.  On any error no processor state (and hence no
document) is produced. -/
def ereaderInit (desD : List Nat → List Nat → List Nat) (sha1F : List Nat → List Nat)
    (bkType : BkType) (sectRead : Int → List Nat)
    (username creditcard : List Nat) : Except Err ProcState := do
  let cf ← cookieParse desD bkType sectRead
  let ck ← keyValidate desD sha1F username creditcard cf
  pure ⟨cf, ck⟩

/-- The region-tagged block built for one ancillary page (lines 370-372):
an opening tag carrying the identifier, the page body, and the closing tag. -/
def wrapBlock (name id page : List Nat) : List Nat :=
  strB "<" ++ name ++ strB " id=\"" ++ id ++ strB "\">" ++ [10] ++ page ++ [10] ++
  strB "</" ++ name ++ strB ">" ++ [10]

/-- Transcription of the ancillary-section loop of `getText`
(lines 366-374 and 390-397): `n` iterations starting at page index `i`,
carrying the accumulated output and the remaining id table; each step reads
the 1-byte length at offset 2 of the table (`IndexError` gives `none`),
takes that many identifier bytes from offset 3, appends the wrapped page
and drops `length + 4` table bytes. -/
def sectLoop (pageOf : Int → List Nat) (name : List Nat) :
    List Nat × List Nat → Nat → Int → Option (List Nat × List Nat)
  | st, 0, _ => some st
  | st, n + 1, i =>
      match st.2[2]? with
      | none => none
      | some idLen =>
          sectLoop pageOf name
            (st.1 ++ wrapBlock name (pySlice st.2 3 (3 + idLen)) (pageOf i),
             st.2.drop (idLen + 4)) n (i + 1)

/-- The text body assembled by the first loop of `getText` (lines 354-356):
each text page is cipher-decrypted with the content key and inflated, and
the results are concatenated in page order. -/
def textBody (desD : List Nat → List Nat → List Nat) (inflate : List Nat → List Nat)
    (sectRead : Int → List Nat) (st : ProcState) : List Nat :=
  ((List.range st.cf.numTextPages.toNat).map
    (fun (i : Nat) => inflate (desD (fixKey st.contentKey) (sectRead (1 + (i : Int)))))).flatten

/-- Transcription of `EreaderProcessor.getText` (lines 351-399): the text
body, then (if present) the footnote section and the sidebar section.  For
each ancillary section, page 0 is recovered with `deXOR` over the XOR
table — not cipher-decrypted — and the subsequent pages are decrypted,
inflated and wrapped with the identifiers scanned from that table. -/
def getText (desD : List Nat → List Nat → List Nat) (inflate : List Nat → List Nat)
    (sectRead : Int → List Nat) (st : ProcState) : Option (List Nat) :=
  let ck := fixKey st.contentKey
  let body := textBody desD inflate sectRead st
  let afterFn : Option (List Nat) :=
    if 0 < st.cf.numFootnotePages then
      match deXOR (sectRead st.cf.firstFootnotePage) 0 st.cf.xortable with
      | none => none
      | some ids =>
          (sectLoop (fun i => inflate (desD ck (sectRead (st.cf.firstFootnotePage + i))))
            (strB "footnote") (body ++ [10], ids) (st.cf.numFootnotePages - 1) 1).map
            (fun p => p.1)
    else some body
  match afterFn with
  | none => none
  | some r =>
      if 0 < st.cf.numSidebarPages then
        match deXOR (sectRead st.cf.firstSidebarPage) 0 st.cf.xortable with
        | none => none
        | some ids =>
            (sectLoop (fun i => inflate (desD ck (sectRead (st.cf.firstSidebarPage + i))))
              (strB "sidebar") (r ++ [10], ids) (st.cf.numSidebarPages - 1) 1).map
              (fun p => p.1)
      else some r

/-! ## Specification-side definitions

These follow the wording of the specification (not the source) and are
compared against the transcribed code above. -/

/-- Left rotation of an 8-bit byte by `k` positions. -/
def rotl8 (b k : Nat) : Nat := ((b <<< k) ||| (b >>> (8 - k))) &&& 255

/-- The OR of all 8 rotations of a byte. -/
def orRotations (b : Nat) : Nat :=
  ((List.range 8).map (rotl8 b)).foldl (fun a x => a ||| x) 0

/-- The XOR of all 8 rotations of a byte. -/
def xorRotations (b : Nat) : Nat :=
  ((List.range 8).map (rotl8 b)).foldl (fun a x => a ^^^ x) 0

/-- The byte transform exactly as the claim words it: the byte XORed with
the OR of all 8 of its rotations, masked to the top bit. -/
def claimedFixByte (b : Nat) : Nat := b ^^^ (orRotations b &&& 0x80)

/-- The corrected byte transform: the byte XORed with the XOR of all 8 of
its rotations and of the constant 0x80, masked to the top bit. -/
def amendedFixByte (b : Nat) : Nat := b ^^^ ((xorRotations b ^^^ 0x80) &&& 0x80)

/-- Number of set bits among the low 8 bits of a byte. -/
def popCount8 (b : Nat) : Nat :=
  ((List.range 8).map (fun k => b >>> k &&& 1)).sum

/-- The inverse reconstruction of the rotating-permutation descrambler:
gather the byte at position `(i+1)*shuf mod n` back to index `i`. -/
def reshuff (r : List Nat) (shuf : Nat) : List Nat :=
  (List.range r.length).map (fun i => (r[unshuffPos r.length shuf i]?).getD 0)

/-- Name normalization as the specification words it: lower-case, then
retain only alphanumerics. -/
def specNormalize (s : List Nat) : List Nat :=
  (s.map pyLower).filter (fun c => (97 ≤ c ∧ c ≤ 122) ∨ (48 ≤ c ∧ c ≤ 57))

/-- The id-table record scan as the specification describes it: each record
carries a 1-byte length field at offset 2, followed by that many identifier
bytes at offset 3, and occupies `length + 4` bytes in total; the result is
the list of the first `n` identifiers. -/
def idRecords : List Nat → Nat → Option (List (List Nat))
  | _, 0 => some []
  | t, n + 1 =>
      match t[2]? with
      | none => none
      | some len =>
          (idRecords (t.drop (len + 4)) n).map (fun rest => pySlice t 3 (3 + len) :: rest)

/-- The page indices visited by an ancillary-section loop: `n` consecutive
integers starting at `i0`. -/
def intRangeI (i0 : Int) (n : Nat) : List Int :=
  (List.range n).map (fun (k : Nat) => i0 + (k : Int))

/-! ## C2: the bit-mixing transform -/

/-- C2 counterexample: at byte 1 the code's `fixByte` returns 1, but the
claimed form (XOR with the OR of all 8 rotations masked to the top bit)
returns 129 — the claim's description of the transform is wrong. -/
theorem c2_fixByte_counterexample :
    fixByte 1 = 1 ∧ claimedFixByte 1 = 129 ∧ fixByte 1 ≠ claimedFixByte 1 := by
  decide

set_option maxRecDepth 4096 in
/-- C2 (amended): for every byte, `fixByte b` equals `b` XORed with the XOR
(not OR) of all 8 rotations of `b` and of the constant 0x80, masked to the
top bit; and `fixKey` applies this transform independently to each byte of
the key. -/
theorem c2_fixByte_amended :
    (∀ b, b < 256 → fixByte b = amendedFixByte b) ∧
    (∀ key, fixKey key = key.map fixByte) := by
  constructor
  · decide
  · intro key
    rfl

/-- C2 witness: the amended transform evaluated at the concrete byte 233. -/
theorem c2_fixByte_amended_witness : fixByte 233 = amendedFixByte 233 :=
  c2_fixByte_amended.1 233 (by decide)

/-! ## C10: fixKey output is a parity key -/

set_option maxRecDepth 4096 in
/-- Per-byte facts behind C10, checked over all 256 byte values. -/
theorem fixByte_parity_facts :
    ∀ b, b < 256 → fixByte (fixByte b) = fixByte b ∧
      fixByte b % 128 = b % 128 ∧ popCount8 (fixByte b) % 2 = 1 := by
  decide

/-- C10: `fixKey` maps `fixByte` over the key; on byte-valued keys every
output byte agrees with the corresponding input byte on the low 7 bits and
has an odd number of set bits, and `fixKey` is idempotent. -/
theorem c10_fixKey_parity (key : List Nat) (h : ∀ b ∈ key, b < 256) :
    fixKey key = key.map fixByte ∧
    fixKey (fixKey key) = fixKey key ∧
    ∀ b ∈ key, fixByte b % 128 = b % 128 ∧ popCount8 (fixByte b) % 2 = 1 := by
  refine ⟨rfl, ?_, ?_⟩
  · show (key.map fixByte).map fixByte = key.map fixByte
    rw [List.map_map]
    apply List.map_congr_left
    intro b hb
    exact (fixByte_parity_facts b (h b hb)).1
  · intro b hb
    exact (fixByte_parity_facts b (h b hb)).2

/-- C10 witness: the parity properties at the concrete key `[0, 170, 255]`. -/
theorem c10_fixKey_parity_witness :
    fixKey [0, 170, 255] = [0, 170, 255].map fixByte ∧
    fixKey (fixKey [0, 170, 255]) = fixKey [0, 170, 255] ∧
    ∀ b ∈ [0, 170, 255], fixByte b % 128 = b % 128 ∧ popCount8 (fixByte b) % 2 = 1 :=
  c10_fixKey_parity [0, 170, 255] (by decide)

/-! ## C9: the XOR descrambler is self-inverse on valid start positions -/

/-- C9 counterexample: with table `[7]` and start position 1 the first table
access is out of range, so `deXOR` raises (returns `none`) and applying it
twice cannot return the original sequence — the claim fails for start
positions that are not valid indexes of the table. -/
theorem c9_deXOR_counterexample :
    (deXOR [0] 1 [7]).bind (fun t => deXOR t 1 [7]) ≠ some [0] := by
  decide

/-- Core of C9: for a start position inside the table, one `deXOR` pass
succeeds and a second pass with the same arguments undoes it. -/
theorem deXOR_involutive (text : List Nat) :
    ∀ sp table, sp < (table : List Nat).length →
      ∃ out, deXOR text sp table = some out ∧ deXOR out sp table = some text := by
  induction text with
  | nil =>
      intro sp table _
      exact ⟨[], rfl, rfl⟩
  | cons c rest ih =>
      intro sp table hsp
      have htb : table[sp]? = some table[sp] := List.getElem?_eq_getElem hsp
      have hlen : 0 < table.length := Nat.lt_of_le_of_lt (Nat.zero_le sp) hsp
      have hj : (if sp + 1 = table.length then 0 else sp + 1) < table.length := by
        by_cases h : sp + 1 = table.length
        · simpa [h] using hlen
        · have : sp + 1 ≤ table.length := hsp
          simp only [h, if_false]
          omega
      obtain ⟨out', h1, h2⟩ := ih (if sp + 1 = table.length then 0 else sp + 1) table hj
      refine ⟨(table[sp] ^^^ c) :: out', ?_, ?_⟩
      · simp only [deXOR, htb, h1]
        rfl
      · simp only [deXOR, htb, h2]
        have hx : table[sp] ^^^ (table[sp] ^^^ c) = c := by
          rw [← Nat.xor_assoc, Nat.xor_self, Nat.zero_xor]
        rw [hx]
        rfl

/-- C9 (amended): for every byte sequence `s`, table `T` and start position
`sp` that is a valid index of `T` (otherwise the first table access raises
`IndexError`), applying `deXOR` twice with the same `(sp, T)` returns `s`. -/
theorem c9_deXOR_self_inverse (s : List Nat) (sp : Nat) (T : List Nat)
    (h : sp < T.length) :
    (deXOR s sp T).bind (fun t => deXOR t sp T) = some s := by
  obtain ⟨out, h1, h2⟩ := deXOR_involutive s sp T h
  rw [h1]
  exact h2

/-- C9 witness: the double application at `s = [1,2,3]`, `sp = 0`, `T = [5,9]`. -/
theorem c9_deXOR_self_inverse_witness :
    (0 < ([5, 9] : List Nat).length) ∧
    (deXOR [1, 2, 3] 0 [5, 9]).bind (fun t => deXOR t 0 [5, 9]) = some [1, 2, 3] :=
  ⟨by decide, c9_deXOR_self_inverse [1, 2, 3] 0 [5, 9] (by decide)⟩

/-! ## C8: the output sanitizer -/

set_option maxRecDepth 8192 in
/-- C8 counterexample: byte 233 is replaced by the 5-character sequence
backslash, letter a, and three digits — not by a 4-character sequence. -/
theorem c8_cleanPML_counterexample :
    cleanPML [233] = [92, 97, 50, 51, 51] ∧ (cleanPML [233]).length ≠ 4 := by
  decide

/-- Congruence for `expandEach`. -/
theorem expandEach_congr (l : List Nat) (f g : Nat → List Nat)
    (h : ∀ c ∈ l, f c = g c) : expandEach l f = expandEach l g := by
  induction l with
  | nil => rfl
  | cons c t ih =>
      simp only [expandEach]
      rw [h c (List.mem_cons_self c t), ih (fun x hx => h x (List.mem_cons_of_mem c hx))]

/-- Expanding each byte to itself is the identity. -/
theorem expandEach_id (l : List Nat) : expandEach l (fun c => [c]) = l := by
  induction l with
  | nil => rfl
  | cons c t ih => simp only [expandEach, ih]; rfl

/-- `expandEach` distributes over append. -/
theorem expandEach_append (a b : List Nat) (f : Nat → List Nat) :
    expandEach (a ++ b) f = expandEach a f ++ expandEach b f := by
  induction a with
  | nil => rfl
  | cons c t ih => simp only [List.cons_append, expandEach, List.append_eq, ih, List.append_assoc]

/-- Two `expandEach` passes compose into one. -/
theorem expandEach_comp (l : List Nat) (f g : Nat → List Nat) :
    expandEach (expandEach l f) g = expandEach l (fun c => expandEach (f c) g) := by
  induction l with
  | nil => rfl
  | cons c t ih => simp only [expandEach, expandEach_append, ih]

/-- All bytes of a PML escape are plain ASCII (below 128). -/
theorem escSeq_lt_128 (k : Nat) (hk : k < 256) : ∀ d ∈ escSeq k, d < 128 := by
  intro d hd
  simp only [escSeq, List.mem_cons, List.not_mem_nil, or_false] at hd
  rcases hd with rfl | rfl | rfl | rfl | rfl <;> omega

/-- The replacement fold of `cleanPML`, described byte-by-byte: replacing the
patterns of `ks` (all in 128..255) in ascending passes expands each byte
that occurs in `ks` to its escape and leaves every other byte alone. -/
theorem foldl_replace_eq (ks : List Nat) (hks : ∀ k ∈ ks, 128 ≤ k ∧ k < 256) :
    ∀ l, ks.foldl (fun acc k => listReplace acc k (escSeq k)) l
      = expandEach l (fun c => if c ∈ ks then escSeq c else [c]) := by
  induction ks with
  | nil =>
      intro l
      simp only [List.foldl_nil]
      rw [expandEach_congr l _ (fun c => [c])]
      · exact (expandEach_id l).symm
      · intro c _
        simp
  | cons k ks ih =>
      intro l
      have hk := hks k (List.mem_cons_self k ks)
      have hks' : ∀ x ∈ ks, 128 ≤ x ∧ x < 256 :=
        fun x hx => hks x (List.mem_cons_of_mem k hx)
      simp only [List.foldl_cons]
      rw [ih hks' (listReplace l k (escSeq k))]
      unfold listReplace
      rw [expandEach_comp]
      apply expandEach_congr
      intro c _
      by_cases hck : c = k
      · subst hck
        simp only [if_pos rfl, List.mem_cons, true_or, if_pos]
        rw [expandEach_congr _ _ (fun d => [d])]
        · exact expandEach_id _
        · intro d hd
          have hd128 : d < 128 := escSeq_lt_128 c hk.2 d hd
          have : d ∉ ks := fun hmem => by
            have := (hks' d hmem).1
            omega
          simp [this]
      · simp only [if_neg hck, expandEach, List.append_nil, List.mem_cons]
        by_cases hcks : c ∈ ks
        · simp [hck, hcks]
        · simp [hck, hcks]

set_option maxRecDepth 8192 in
/-- C8 (amended): on byte-valued input, `cleanPML` leaves every byte below
128 unchanged (in particular pure-ASCII input is returned identical) and
replaces every byte in 128..255 by the 5-character sequence backslash,
letter a, then the byte's decimal value zero-padded to 3 digits. -/
theorem c8_cleanPML_amended (l : List Nat) (h : ∀ c ∈ l, c < 256) :
    cleanPML l = expandEach l (fun c => if c < 128 then [c] else escSeq c) ∧
    ((∀ c ∈ l, c < 128) → cleanPML l = l) ∧
    (∀ b, b < 256 → 128 ≤ b →
      (escSeq b).length = 5 ∧
      (escSeq b).take 2 = [92, 97] ∧
      ((escSeq b).getD 2 0 - 48) * 100 + ((escSeq b).getD 3 0 - 48) * 10 +
        ((escSeq b).getD 4 0 - 48) = b) := by
  have hmain : cleanPML l = expandEach l (fun c => if c < 128 then [c] else escSeq c) := by
    unfold cleanPML
    rw [foldl_replace_eq]
    · apply expandEach_congr
      intro c hc
      have hc256 := h c hc
      by_cases hlt : c < 128
      · have : c ∉ (List.range 128).map (fun j => 128 + j) := by
          simp only [List.mem_map, List.mem_range]
          rintro ⟨j, _, rfl⟩
          omega
        simp [this, hlt]
      · have : c ∈ (List.range 128).map (fun j => 128 + j) := by
          simp only [List.mem_map, List.mem_range]
          exact ⟨c - 128, by omega, by omega⟩
        simp [this, hlt]
    · intro k hk
      simp only [List.mem_map, List.mem_range] at hk
      obtain ⟨j, hj, rfl⟩ := hk
      omega
  refine ⟨hmain, ?_, ?_⟩
  · intro hall
    rw [hmain, expandEach_congr _ _ (fun c => [c])]
    · exact expandEach_id l
    · intro c hc
      simp [hall c hc]
  · decide

set_option maxRecDepth 8192 in
/-- C8 witness: the amended sanitizer property at the concrete input
`[65, 233]` (letter A followed by a high byte). -/
theorem c8_cleanPML_amended_witness :
    cleanPML [65, 233] =
      expandEach [65, 233] (fun c => if c < 128 then [c] else escSeq c) ∧
    ((∀ c ∈ [65, 233], c < 128) → cleanPML [65, 233] = [65, 233]) ∧
    (∀ b, b < 256 → 128 ≤ b →
      (escSeq b).length = 5 ∧
      (escSeq b).take 2 = [92, 97] ∧
      ((escSeq b).getD 2 0 - 48) * 100 + ((escSeq b).getD 3 0 - 48) * 10 +
        ((escSeq b).getD 4 0 - 48) = b) :=
  c8_cleanPML_amended [65, 233] (by decide)

/-! ## C3: the reader key -/

/-- Bind of a successful `Except` computation. -/
theorem except_bind_ok {α β : Type} (a : α) (f : α → Except Err β) :
    (Except.ok a : Except Err α) >>= f = f a := rfl

/-- Bind of a failed `Except` computation. -/
theorem except_bind_error {α β : Type} (e : Err) (f : α → Except Err β) :
    (Except.error e : Except Err α) >>= f = Except.error e := rfl

/-- One CRC bit step stays below 2^32. -/
theorem crcStep_lt (c : Nat) (h : c < 2 ^ 32) : crcStep c < 2 ^ 32 := by
  unfold crcStep
  by_cases hp : c % 2 = 1
  · simp only [hp, if_pos rfl]
    exact Nat.xor_lt_two_pow (by omega) (by norm_num)
  · simp only [if_neg hp]
    omega

/-- Eight CRC bit steps stay below 2^32. -/
theorem crcStep8_lt (c : Nat) (h : c < 2 ^ 32) : crcStep8 c < 2 ^ 32 := by
  unfold crcStep8
  iterate 8 apply crcStep_lt
  exact h

/-- The CRC-32 of a byte list is a 32-bit value. -/
theorem crc32_lt (l : List Nat) (h : ∀ b ∈ l, b < 256) : crc32 l < 2 ^ 32 := by
  unfold crc32
  have main : ∀ (l : List Nat), (∀ b ∈ l, b < 256) → ∀ c, c < 2 ^ 32 →
      l.foldl (fun c b => crcStep8 (c ^^^ b)) c < 2 ^ 32 := by
    intro l
    induction l with
    | nil => intro _ c hc; simpa using hc
    | cons b t ih =>
        intro hb c hc
        simp only [List.foldl_cons]
        apply ih (fun x hx => hb x (List.mem_cons_of_mem b hx))
        apply crcStep8_lt
        exact Nat.xor_lt_two_pow hc (lt_trans (hb b (List.mem_cons_self b t)) (by norm_num))
  exact Nat.xor_lt_two_pow (main l h _ (by norm_num)) (by norm_num)

/-- Masking a 32-bit value with 0xffffffff is the identity. -/
theorem and_ffffffff_eq (x : Nat) (h : x < 2 ^ 32) : x &&& 0xffffffff = x := by
  have : (0xffffffff : Nat) = 2 ^ 32 - 1 := by norm_num
  rw [this, Nat.and_pow_two_sub_one_eq_mod]
  exact Nat.mod_eq_of_lt h

/-- Every byte kept by `fixUsername` is alphanumeric, hence below 256. -/
theorem fixUsername_bytes (s : List Nat) : ∀ b ∈ fixUsername s, b < 256 := by
  intro b hb
  unfold fixUsername at hb
  have := List.of_mem_filter hb
  simp only [decide_eq_true_eq] at this
  omega

/-- The source's `fixUsername` is the specification's normalization. -/
theorem fixUsername_eq_specNormalize (s : List Nat) : fixUsername s = specNormalize s := rfl

/-- `beBytes32` always has four bytes. -/
theorem beBytes32_length (v : Nat) : (beBytes32 v).length = 4 := rfl

/-- Unpacking the big-endian bytes of a 32-bit value recovers it. -/
theorem unpack32_beBytes32 (v : Nat) (h : v < 2 ^ 32) :
    unpack32 (beBytes32 v) = some v := by
  simp only [beBytes32, unpack32, Option.some.injEq]
  omega

/-- C3: the reader key is the big-endian packing of the CRC-32 of the
normalized name and the CRC-32 of the last 8 characters of the credential
number: the stated equation, plus the 8-byte length and the recovery of the
two 32-bit words from the packed bytes. -/
theorem c3_userKey_structure (u cc : List Nat) (hcc : ∀ b ∈ cc, b < 256) :
    userKey u cc = beBytes32 (crc32 (specNormalize u)) ++ beBytes32 (crc32 (lastN 8 cc)) ∧
    (userKey u cc).length = 8 ∧
    unpack32 (pySlice (userKey u cc) 0 4) = some (crc32 (specNormalize u)) ∧
    unpack32 (pySlice (userKey u cc) 4 8) = some (crc32 (lastN 8 cc)) := by
  have h1 : crc32 (fixUsername u) < 2 ^ 32 := crc32_lt _ (fixUsername_bytes u)
  have h2 : crc32 (lastN 8 cc) < 2 ^ 32 := by
    apply crc32_lt
    intro b hb
    exact hcc b (List.mem_of_mem_drop hb)
  have hmain : userKey u cc =
      beBytes32 (crc32 (specNormalize u)) ++ beBytes32 (crc32 (lastN 8 cc)) := by
    unfold userKey
    rw [and_ffffffff_eq _ h1, and_ffffffff_eq _ h2, fixUsername_eq_specNormalize]
  refine ⟨hmain, ?_, ?_, ?_⟩
  · rw [hmain]
    simp [beBytes32]
  · rw [hmain]
    have : pySlice (beBytes32 (crc32 (specNormalize u)) ++ beBytes32 (crc32 (lastN 8 cc))) 0 4 =
        beBytes32 (crc32 (specNormalize u)) := by
      simp [pySlice, beBytes32]
    rw [this]
    rw [fixUsername_eq_specNormalize] at h1
    exact unpack32_beBytes32 _ h1
  · rw [hmain]
    have : pySlice (beBytes32 (crc32 (specNormalize u)) ++ beBytes32 (crc32 (lastN 8 cc))) 4 8 =
        beBytes32 (crc32 (lastN 8 cc)) := by
      simp [pySlice, beBytes32]
    rw [this]
    exact unpack32_beBytes32 _ h2

/-- C3 witness: the reader key structure at a concrete name and credential
number. -/
theorem c3_userKey_structure_witness :
    userKey (strB "John Smith") (strB "1234567890123456") =
      beBytes32 (crc32 (specNormalize (strB "John Smith"))) ++
      beBytes32 (crc32 (lastN 8 (strB "1234567890123456"))) ∧
    (userKey (strB "John Smith") (strB "1234567890123456")).length = 8 ∧
    unpack32 (pySlice (userKey (strB "John Smith") (strB "1234567890123456")) 0 4) =
      some (crc32 (specNormalize (strB "John Smith"))) ∧
    unpack32 (pySlice (userKey (strB "John Smith") (strB "1234567890123456")) 4 8) =
      some (crc32 (lastN 8 (strB "1234567890123456"))) :=
  c3_userKey_structure (strB "John Smith") (strB "1234567890123456") (by decide)

/-! ## C6: the container identifier check -/

/-- A two-byte slice unpacks successfully. -/
theorem unpack16_of_length_two (l : List Nat) (h : l.length = 2) :
    ∃ v, unpack16 l = some v := by
  match l, h with
  | [a, b], _ => exact ⟨a * 256 + b, rfl⟩

/-- The record-count slice has exactly two bytes on a file of at least 78 bytes. -/
theorem recordCount_slice_length (contents : List Nat) (h : 78 ≤ contents.length) :
    (pySlice contents 76 78).length = 2 := by
  simp only [pySlice, List.length_take, List.length_drop]
  omega

/-- The identifier read from the 72-byte header slice is the identifier read
from the file itself. -/
theorem headerSlice_eq (contents : List Nat) :
    pySlice (pySlice contents 0 72) 0x3C (0x3C + 8) = pySlice contents 0x3C (0x3C + 8) := by
  simp only [pySlice, List.drop_zero, List.drop_take, List.take_take]
  norm_num

/-- C6: on a container of at least 78 bytes, if the 8-byte identifier at
header offset 0x3C matches neither the expected tag nor the alternate tag,
`Sectionizer.__init__` fails with the FormatError (`invalidFileFormat`)
before doing anything else — it involves no cryptographic capability at
all — and if the identifier equals the alternate tag the container is
accepted with the dictionary subtype. -/
theorem c6_sectionizer_ident (contents : List Nat) (hlen : 78 ≤ contents.length) :
    (pySlice contents 0x3C (0x3C + 8) ≠ pnrdTag →
     pySlice contents 0x3C (0x3C + 8) ≠ pdctTag →
      sectionizerInit contents pnrdTag = Except.error Err.invalidFileFormat) ∧
    (∀ ns secs, pySlice contents 0x3C (0x3C + 8) = pdctTag →
      unpack16 (pySlice contents 76 78) = some ns →
      parseDirectory contents ns = Except.ok secs →
      ∃ st, sectionizerInit contents pnrdTag = Except.ok st ∧ st.bkType = BkType.dict) := by
  constructor
  · intro hid1 hid2
    obtain ⟨ns, hns⟩ := unpack16_of_length_two _ (recordCount_slice_length contents hlen)
    have hc1 : pySlice (pySlice contents 0 72) 0x3C (0x3C + 8) ≠ pnrdTag := by
      rw [headerSlice_eq]; exact hid1
    have hc2 : pySlice (pySlice contents 0 72) 0x3C (0x3C + 8) ≠ pdctTag := by
      rw [headerSlice_eq]; exact hid2
    unfold sectionizerInit
    rw [hns]
    simp only [liftStruct, except_bind_ok]
    rw [if_pos hc1, if_neg hc2]
    rfl
  · intro ns secs hid hns hdir
    have hne : pySlice (pySlice contents 0 72) 0x3C (0x3C + 8) ≠ pnrdTag := by
      rw [headerSlice_eq, hid]
      decide
    have heq : pySlice (pySlice contents 0 72) 0x3C (0x3C + 8) = pdctTag := by
      rw [headerSlice_eq]; exact hid
    refine ⟨⟨contents, pySlice contents 0 72, ns, BkType.dict, secs⟩, ?_, rfl⟩
    unfold sectionizerInit
    rw [hns]
    simp only [liftStruct, except_bind_ok]
    rw [if_pos hne, if_pos heq]
    simp only [except_bind_ok, hdir]
    rfl

/-- C6 witness: a 78-byte container with an unrecognized identifier is
rejected with the FormatError, and one carrying the alternate tag is
accepted as a dictionary. -/
theorem c6_sectionizer_ident_witness :
    sectionizerInit (List.replicate 78 0) pnrdTag = Except.error Err.invalidFileFormat ∧
    ∃ st, sectionizerInit (List.replicate 60 0 ++ pdctTag ++ List.replicate 10 0) pnrdTag =
      Except.ok st ∧ st.bkType = BkType.dict := by
  constructor
  · exact (c6_sectionizer_ident (List.replicate 78 0) (by decide)).1 (by decide) (by decide)
  · exact (c6_sectionizer_ident (List.replicate 60 0 ++ pdctTag ++ List.replicate 10 0)
      (by decide)).2 0 [] (by decide) (by decide) (by rfl)

/-! ## C1 and C5: key validation and the feature-flag gate -/

/-- C1: whenever the cookie parses, the feature flags pass, and the SHA-1
digest of the content key decrypted with the reader key differs from the
digest stored at the revision-resolved offset, `EreaderProcessor.__init__`
fails with the CredentialError — and no processor state (hence no document,
partial or otherwise) is produced. -/
theorem c1_credential_error (desD : List Nat → List Nat → List Nat)
    (sha1F : List Nat → List Nat) (bk : BkType) (sectRead : Int → List Nat)
    (uname cc : List Nat) (cf : CookieFields) (ek sha : List Nat)
    (hparse : cookieParse desD bk sectRead = Except.ok cf)
    (hflags : cf.flags &&& reqdFlags = reqdFlags)
    (hres : resolveKeyFields cf = Except.ok (ek, sha))
    (hsha : sha1F (desD (fixKey (userKey uname cc)) ek) ≠ sha) :
    ereaderInit desD sha1F bk sectRead uname cc = Except.error Err.credential ∧
    ∀ st, ereaderInit desD sha1F bk sectRead uname cc ≠ Except.ok st := by
  have hkv : keyValidate desD sha1F uname cc cf = Except.error Err.credential := by
    unfold keyValidate
    rw [if_neg (show ¬cf.flags &&& reqdFlags ≠ reqdFlags from fun h => h hflags)]
    rw [show ((pure () : Except Err Unit) >>= fun _ =>
          resolveKeyFields cf >>= fun ek =>
          if sha1F (desD (fixKey (userKey uname cc)) ek.1) ≠ ek.2
          then Except.error Err.credential >>= fun _ =>
            (pure (desD (fixKey (userKey uname cc)) ek.1) : Except Err (List Nat))
          else (pure () : Except Err Unit) >>= fun _ =>
            pure (desD (fixKey (userKey uname cc)) ek.1)) =
        (resolveKeyFields cf >>= fun ek =>
          if sha1F (desD (fixKey (userKey uname cc)) ek.1) ≠ ek.2
          then Except.error Err.credential
          else pure (desD (fixKey (userKey uname cc)) ek.1)) from rfl]
    rw [hres, except_bind_ok]
    rw [if_pos hsha]
  have hmain : ereaderInit desD sha1F bk sectRead uname cc = Except.error Err.credential := by
    unfold ereaderInit
    rw [hparse, except_bind_ok, hkv, except_bind_error]
  exact ⟨hmain, fun st h => by rw [hmain] at h; exact Except.noConfusion h⟩

/-- The injected cipher used by the concrete witnesses: decryption is the
identity on the ciphertext. -/
def idCipher : List Nat → List Nat → List Nat := fun _ d => d

/-- The injected digest used by the concrete witnesses: a constant 20-byte
digest of zeros. -/
def zeroDigest : List Nat → List Nat := fun _ => List.replicate 20 0

/-- Cookie bytes for the C1 witness: drm sub-version 7, one text page,
flags 0x680 (all three required bits), nonzero digest byte at offset 44. -/
def c1r : List Nat :=
  (((((List.replicate 232 0).set 1 7).set 3 1).set 6 6).set 7 128).set 44 1

/-- The pre-image of `c1r` under `unshuff` with rotation constant 3. -/
def c1x : List Nat := (List.range 232).map (fun i => c1r.getD (unshuffPos 232 3 i) 0)

/-- Record 1 for the C1 witness: the shuffled cookie followed by the
(plaintext, since the witness cipher is the identity) footer declaring
rotation 3 and cookie size 240. -/
def c1data : List Nat := c1x ++ [0, 0, 0, 3, 0, 0, 0, 240]

/-- Section reader for the C1 witness: record 0 declares version 259 and
record 1 is `c1data`. -/
def c1sect : Int → List Nat :=
  fun i => if i = 0 then [1, 3] else if i = 1 then c1data else []

/-- The cookie fields the C1 witness parses to. -/
def c1cf : CookieFields :=
  match cookieParse idCipher BkType.book c1sect with
  | Except.ok cf => cf
  | Except.error _ => default

set_option maxRecDepth 100000 in
/-- C1 witness: on a concrete container whose stored digest does not match
the digest of the decrypted content key, initialization fails with the
CredentialError. -/
theorem c1_credential_error_witness :
    ereaderInit idCipher zeroDigest BkType.book c1sect
      (strB "Jane Doe") (strB "1234567890123456") = Except.error Err.credential :=
  (c1_credential_error idCipher zeroDigest BkType.book c1sect
    (strB "Jane Doe") (strB "1234567890123456") c1cf
    (pySlice c1cf.r 64 72) (pySlice c1cf.r 44 64)
    rfl rfl rfl (by decide)).1

/-- The cookie stage touches the injected cipher only at the key derived
from the first 8 bytes of record 1: two ciphers that agree there parse the
cookie identically. -/
theorem cookieParse_cipher_congr (desD desD' : List Nat → List Nat → List Nat)
    (bk : BkType) (sectRead : Int → List Nat)
    (hagree : desD' (fixKey (pySlice (sectRead 1) 0 8)) =
              desD (fixKey (pySlice (sectRead 1) 0 8))) :
    cookieParse desD' bk sectRead = cookieParse desD bk sectRead := by
  unfold cookieParse
  simp only [hagree]

/-- C5: whenever the decrypted cookie's flags word lacks one of the three
required bits (7, 9 and 10), initialization fails with the
UnsupportedFeatureError (`incompatible`) — for every digest capability,
every credential pair, and every cipher that agrees with the parsing
cipher on the cookie key.  The failure therefore happens after cookie
decryption and before any content-key decryption or validation. -/
theorem c5_flag_gate (desD desD' : List Nat → List Nat → List Nat)
    (sha1F : List Nat → List Nat) (bk : BkType) (sectRead : Int → List Nat)
    (uname cc : List Nat) (cf : CookieFields)
    (hagree : desD' (fixKey (pySlice (sectRead 1) 0 8)) =
              desD (fixKey (pySlice (sectRead 1) 0 8)))
    (hparse : cookieParse desD bk sectRead = Except.ok cf)
    (hflags : cf.flags &&& reqdFlags ≠ reqdFlags) :
    ereaderInit desD' sha1F bk sectRead uname cc = Except.error Err.incompatible := by
  have hparse' : cookieParse desD' bk sectRead = Except.ok cf := by
    rw [cookieParse_cipher_congr desD desD' bk sectRead hagree, hparse]
  have hkv : keyValidate desD' sha1F uname cc cf = Except.error Err.incompatible := by
    unfold keyValidate
    rw [if_pos hflags, except_bind_error]
  unfold ereaderInit
  rw [hparse', except_bind_ok, hkv, except_bind_error]

/-- Cookie bytes for the C5 witness: like the C1 witness but with flags
0x600, missing required bit 7. -/
def c5r : List Nat :=
  ((((List.replicate 232 0).set 1 7).set 3 1).set 6 6).set 44 1

/-- The pre-image of `c5r` under `unshuff` with rotation constant 3. -/
def c5x : List Nat := (List.range 232).map (fun i => c5r.getD (unshuffPos 232 3 i) 0)

/-- Record 1 for the C5 witness. -/
def c5data : List Nat := c5x ++ [0, 0, 0, 3, 0, 0, 0, 240]

/-- Section reader for the C5 witness. -/
def c5sect : Int → List Nat :=
  fun i => if i = 0 then [1, 3] else if i = 1 then c5data else []

/-- The cookie fields the C5 witness parses to. -/
def c5cf : CookieFields :=
  match cookieParse idCipher BkType.book c5sect with
  | Except.ok cf => cf
  | Except.error _ => default

set_option maxRecDepth 100000 in
/-- C5 witness: a concrete container whose cookie lacks required flag bit 7
is rejected as incompatible. -/
theorem c5_flag_gate_witness :
    ereaderInit idCipher zeroDigest BkType.book c5sect
      (strB "Jane Doe") (strB "1234567890123456") = Except.error Err.incompatible :=
  c5_flag_gate idCipher idCipher zeroDigest BkType.book c5sect
    (strB "Jane Doe") (strB "1234567890123456") c5cf rfl rfl (by decide)

/-! ## C4: the rotating-permutation descrambler -/

/-- C4 counterexample: with 6 input bytes and the in-range rotation
constant 3 (not coprime to the length), write positions repeat, some cells
are never written, and the assert in `unshuff` fires — no permutation of
the input is produced at all. -/
theorem c4_unshuff_counterexample :
    3 ≤ 3 ∧ 3 ≤ 20 ∧ unshuff [0, 1, 2, 3, 4, 5] 3 = none := by
  decide

/-- Write positions stay inside the array. -/
theorem unshuffPos_lt (n shuf i : Nat) (hn : 0 < n) : unshuffPos n shuf i < n :=
  Nat.mod_lt _ hn

/-- For a rotation constant coprime to the length, distinct indices write
to distinct positions. -/
theorem unshuffPos_inj (n k i j : Nat) (hco : Nat.gcd k n = 1)
    (hi : i < n) (hj : j < n) (h : unshuffPos n k i = unshuffPos n k j) : i = j := by
  have hmod : (i + 1) * k ≡ (j + 1) * k [MOD n] := h
  have hco' : Nat.gcd n k = 1 := by rwa [Nat.gcd_comm]
  have h2 : (i + 1) % n = (j + 1) % n := Nat.ModEq.cancel_right_of_coprime hco' hmod
  rcases Nat.lt_or_ge (i + 1) n with h1 | h1
  · rcases Nat.lt_or_ge (j + 1) n with h3 | h3
    · rw [Nat.mod_eq_of_lt h1, Nat.mod_eq_of_lt h3] at h2
      omega
    · have hj1 : j + 1 = n := by omega
      rw [Nat.mod_eq_of_lt h1, hj1, Nat.mod_self] at h2
      omega
  · have hi1 : i + 1 = n := by omega
    rcases Nat.lt_or_ge (j + 1) n with h3 | h3
    · rw [hi1, Nat.mod_self, Nat.mod_eq_of_lt h3] at h2
      omega
    · omega

/-- Folding point writes preserves the array length. -/
theorem scatterFold_length (ws : List (Nat × Nat)) :
    ∀ A : List (Option Nat),
      (ws.foldl (fun r pv => r.set pv.1 (some pv.2)) A).length = A.length := by
  induction ws with
  | nil => intro A; rfl
  | cons w t ih =>
      intro A
      rw [List.foldl_cons, ih, List.length_set]

/-- A cell no write targets keeps its content. -/
theorem scatterFold_get_notmem (ws : List (Nat × Nat)) (q : Nat)
    (hq : ∀ pv ∈ ws, pv.1 ≠ q) :
    ∀ A : List (Option Nat),
      (ws.foldl (fun r pv => r.set pv.1 (some pv.2)) A)[q]? = A[q]? := by
  induction ws with
  | nil => intro A; rfl
  | cons w t ih =>
      intro A
      rw [List.foldl_cons, ih (fun pv h => hq pv (List.mem_cons_of_mem w h))]
      exact List.getElem?_set_ne (hq w (List.mem_cons_self w t))

/-- With pairwise-distinct write positions, the cell a write targets ends
up holding that write's value. -/
theorem scatterFold_get_mem (ws : List (Nat × Nat)) (p v : Nat) :
    (ws.map Prod.fst).Nodup → (p, v) ∈ ws →
    ∀ A : List (Option Nat), p < A.length →
      (ws.foldl (fun r pv => r.set pv.1 (some pv.2)) A)[p]? = some (some v) := by
  induction ws with
  | nil => intro _ hmem; exact absurd hmem (List.not_mem_nil _)
  | cons w t ih =>
      intro hnd hmem A hp
      rw [List.map_cons, List.nodup_cons] at hnd
      rw [List.foldl_cons]
      rcases List.mem_cons.mp hmem with heq | hmem'
      · have hw1 : w.1 = p := by rw [← heq]
        have hw2 : w.2 = v := by rw [← heq]
        subst hw1 hw2
        have hnot : ∀ pv ∈ t, pv.1 ≠ w.1 := by
          intro pv hpv hcontra
          exact hnd.1 (hcontra ▸ List.mem_map_of_mem Prod.fst hpv)
        rw [scatterFold_get_notmem t w.1 hnot]
        exact List.getElem?_set_self hp
      · have hne : w.1 ≠ p := by
          intro hcontra
          apply hnd.1
          rw [hcontra]
          exact List.mem_map_of_mem Prod.fst hmem'
        apply ih hnd.2 hmem'
        rw [List.length_set]
        exact hp

/-- The scatter array of `unshuff` as an explicit fold over
position-value pairs. -/
theorem unshuffArr_eq_scatter (data : List Nat) (k : Nat) :
    unshuffArr data k =
      ((List.range data.length).map
        (fun i => (unshuffPos data.length k i, data.getD i 0))).foldl
        (fun r pv => r.set pv.1 (some pv.2)) (List.replicate data.length none) := by
  rw [List.foldl_map]
  rfl

/-- The scatter array has the input's length. -/
theorem unshuffArr_length (data : List Nat) (k : Nat) :
    (unshuffArr data k).length = data.length := by
  rw [unshuffArr_eq_scatter, scatterFold_length, List.length_replicate]

/-- The write positions are pairwise distinct for a coprime constant. -/
theorem unshuffPos_pairs_nodup (data : List Nat) (k : Nat)
    (hco : Nat.gcd k data.length = 1) :
    (((List.range data.length).map
        (fun i => (unshuffPos data.length k i, data.getD i 0))).map Prod.fst).Nodup := by
  rw [List.map_map]
  have hcomp : (Prod.fst ∘ fun i => (unshuffPos data.length k i, data.getD i 0)) =
      fun i => unshuffPos data.length k i := rfl
  rw [hcomp]
  refine List.Nodup.map_on ?_ (List.nodup_range _)
  intro x hx y hy hxy
  exact unshuffPos_inj _ k x y hco (List.mem_range.mp hx) (List.mem_range.mp hy) hxy

/-- Each input byte lands at its computed position. -/
theorem unshuffArr_get (data : List Nat) (k i : Nat)
    (hco : Nat.gcd k data.length = 1) (hi : i < data.length) :
    (unshuffArr data k)[unshuffPos data.length k i]? = some (some (data.getD i 0)) := by
  rw [unshuffArr_eq_scatter]
  apply scatterFold_get_mem _ _ _ (unshuffPos_pairs_nodup data k hco)
  · exact List.mem_map.mpr ⟨i, List.mem_range.mpr hi, rfl⟩
  · rw [List.length_replicate]
    exact unshuffPos_lt _ _ _ (by omega)

/-- For a coprime constant the position map is surjective below the length. -/
theorem unshuffPos_surj (n k : Nat) (hco : Nat.gcd k n = 1) (hn : 0 < n)
    (q : Nat) (hq : q < n) : ∃ i, i < n ∧ unshuffPos n k i = q := by
  have hinj : Function.Injective
      (fun i : Fin n => (⟨unshuffPos n k i, unshuffPos_lt n k i hn⟩ : Fin n)) := by
    intro a b hab
    apply Fin.ext
    exact unshuffPos_inj n k a b hco a.isLt b.isLt (congrArg Fin.val hab)
  obtain ⟨i, hi⟩ := Finite.injective_iff_surjective.mp hinj ⟨q, hq⟩
  exact ⟨i, i.isLt, congrArg Fin.val hi⟩

/-- Every cell of the scatter array is written for a coprime constant. -/
theorem unshuffArr_all_some (data : List Nat) (k : Nat)
    (hco : Nat.gcd k data.length = 1) (hn : 0 < data.length) :
    ∀ x ∈ unshuffArr data k, x ≠ none := by
  intro x hx
  obtain ⟨q, hq⟩ := List.mem_iff_getElem?.mp hx
  have hqlt : q < data.length := by
    rcases List.getElem?_eq_some_iff.mp hq with ⟨hlt, _⟩
    rw [unshuffArr_length] at hlt
    exact hlt
  obtain ⟨i, hi, hpos⟩ := unshuffPos_surj data.length k hco hn q hqlt
  have hcell := unshuffArr_get data k i hco hi
  rw [hpos] at hcell
  rw [hcell] at hq
  rw [← Option.some_inj.mp hq]
  exact Option.noConfusion

/-- `filterMap id` on a list without empty cells extracts every cell. -/
theorem filterMap_id_all_some (l : List (Option Nat)) (h : ∀ x ∈ l, x ≠ none) :
    l.filterMap id = l.map (fun o => o.getD 0) := by
  induction l with
  | nil => rfl
  | cons a t ih =>
      cases a with
      | none => exact absurd rfl (h none (List.mem_cons_self none t))
      | some v =>
          rw [List.filterMap_cons_some (f := id) (a := some v) (b := v) rfl,
            List.map_cons, ih (fun x hx => h x (List.mem_cons_of_mem _ hx))]
          rfl

/-- For a coprime constant, `unshuff` succeeds and its output is the
extraction of the scatter array. -/
theorem unshuff_eq_some (data : List Nat) (k : Nat)
    (hco : Nat.gcd k data.length = 1) (hn : 0 < data.length) :
    unshuff data k = some ((unshuffArr data k).map (fun o => o.getD 0)) := by
  unfold unshuff
  rw [filterMap_id_all_some _ (unshuffArr_all_some data k hco hn)]
  rw [if_pos]
  rw [List.length_map, unshuffArr_length]

/-- C4 (amended): for every byte sequence and every rotation constant in
[3, 20] that is coprime to the length, `unshuff` produces a permutation of
the input of the same length — witnessed by a bijection of the index set
carrying input position `i` to output position `(i+1)*k mod n` — and the
inverse reconstruction `reshuff` recovers the input exactly.  (Without
coprimality the assert fires, see the counterexample.) -/
theorem c4_unshuff_roundtrip (data : List Nat) (k : Nat)
    (hk3 : 3 ≤ k) (hk20 : k ≤ 20) (hco : Nat.gcd k data.length = 1) :
    ∃ r, unshuff data k = some r ∧ r.length = data.length ∧
      (∃ e : Fin data.length ≃ Fin data.length,
        ∀ i : Fin data.length, r[(e i : Fin data.length).val]? = data[i.val]?) ∧
      reshuff r k = data := by
  have hn : 0 < data.length := by
    rcases Nat.eq_zero_or_pos data.length with h0 | h
    · rw [h0, Nat.gcd_zero_right] at hco
      omega
    · exact h
  refine ⟨(unshuffArr data k).map (fun o => o.getD 0),
    unshuff_eq_some data k hco hn, ?_, ?_, ?_⟩
  · rw [List.length_map, unshuffArr_length]
  · have hbij : Function.Bijective
        (fun i : Fin data.length =>
          (⟨unshuffPos data.length k i, unshuffPos_lt data.length k i hn⟩ :
            Fin data.length)) := by
      constructor
      · intro a b hab
        apply Fin.ext
        exact unshuffPos_inj data.length k a b hco a.isLt b.isLt (congrArg Fin.val hab)
      · intro q
        obtain ⟨i, hi, hpos⟩ := unshuffPos_surj data.length k hco hn q.val q.isLt
        exact ⟨⟨i, hi⟩, Fin.ext hpos⟩
    refine ⟨Equiv.ofBijective _ hbij, ?_⟩
    intro i
    have happ : ((Equiv.ofBijective _ hbij) i : Fin data.length).val =
        unshuffPos data.length k i.val := rfl
    rw [happ, List.getElem?_map, unshuffArr_get data k i.val hco i.isLt]
    rw [List.getElem?_eq_getElem i.isLt]
    have hgd : data.getD i.val 0 = data[i.val] := by
      rw [List.getD_eq_getElem?_getD, List.getElem?_eq_getElem i.isLt]
      rfl
    rw [Option.map_some', Option.getD_some, hgd]
  · apply List.ext_getElem?
    intro m
    have hRlen : ((unshuffArr data k).map (fun o => o.getD 0)).length = data.length := by
      rw [List.length_map, unshuffArr_length]
    by_cases hm : m < data.length
    · unfold reshuff
      rw [hRlen]
      rw [List.getElem?_map, List.getElem?_range hm]
      rw [Option.map_some']
      rw [List.getElem?_map, unshuffArr_get data k m hco hm]
      rw [List.getElem?_eq_getElem hm]
      have hgd : data.getD m 0 = data[m] := by
        rw [List.getD_eq_getElem?_getD, List.getElem?_eq_getElem hm]
        rfl
      simp [hgd, List.getElem?_eq_getElem hm]
    · unfold reshuff
      rw [hRlen]
      rw [List.getElem?_eq_none, List.getElem?_eq_none]
      · omega
      · rw [List.length_map, List.length_range]
        omega

/-- C4 witness: the descrambler round trip at the 5-byte input
`[10, 20, 30, 40, 50]` with rotation constant 3 (coprime to 5). -/
theorem c4_unshuff_roundtrip_witness :
    Nat.gcd 3 ([10, 20, 30, 40, 50] : List Nat).length = 1 ∧
    (∃ r, unshuff [10, 20, 30, 40, 50] 3 = some r ∧
      r.length = ([10, 20, 30, 40, 50] : List Nat).length ∧
      (∃ e : Fin ([10, 20, 30, 40, 50] : List Nat).length ≃
          Fin ([10, 20, 30, 40, 50] : List Nat).length,
        ∀ i : Fin ([10, 20, 30, 40, 50] : List Nat).length,
          r[(e i : Fin ([10, 20, 30, 40, 50] : List Nat).length).val]? =
            ([10, 20, 30, 40, 50] : List Nat)[i.val]?) ∧
      reshuff r 3 = [10, 20, 30, 40, 50]) :=
  ⟨by decide, c4_unshuff_roundtrip [10, 20, 30, 40, 50] 3 (by decide) (by decide) (by decide)⟩

/-! ## C7: ancillary id-table scanning -/

/-- The page indices of an ancillary loop, peeled one step. -/
theorem intRangeI_succ (i0 : Int) (n : Nat) :
    intRangeI i0 (n + 1) = i0 :: intRangeI (i0 + 1) n := by
  unfold intRangeI
  rw [List.range_succ_eq_map, List.map_cons, List.map_map]
  congr 1
  · simp
  · apply List.map_congr_left
    intro k _
    simp only [Function.comp_apply, Nat.succ_eq_add_one]
    push_cast
    ring

/-- The ancillary-section loop of `getText` emits exactly the wrapped pages
named by the id-table records: if the first `n` length-prefixed records of
the table parse to identifiers `L`, the loop appends, in page order, one
region-tagged block per record. -/
theorem sectLoop_records (pageOf : Int → List Nat) (name : List Nat) :
    ∀ (n : Nat) (ids : List Nat) (L : List (List Nat)) (r0 : List Nat) (i0 : Int),
      idRecords ids n = some L →
      ∃ rest, sectLoop pageOf name (r0, ids) n i0 =
        some (r0 ++ ((L.zip (intRangeI i0 n)).map
          (fun p => wrapBlock name p.1 (pageOf p.2))).flatten, rest) := by
  intro n
  induction n with
  | zero =>
      intro ids L r0 i0 hrec
      have hL : L = [] := by
        have : some ([] : List (List Nat)) = some L := hrec
        exact (Option.some_inj.mp this).symm
      subst hL
      refine ⟨ids, ?_⟩
      simp [sectLoop, intRangeI]
  | succ n ih =>
      intro ids L r0 i0 hrec
      rw [idRecords] at hrec
      cases hids : ids[2]? with
      | none =>
          rw [hids] at hrec
          exact absurd hrec (Option.noConfusion)
      | some len =>
          rw [hids] at hrec
          obtain ⟨L', hL', rfl⟩ := Option.map_eq_some'.mp hrec
          obtain ⟨rest, hrest⟩ :=
            ih (ids.drop (len + 4)) L'
              (r0 ++ wrapBlock name (pySlice ids 3 (3 + len)) (pageOf i0)) (i0 + 1) hL'
          refine ⟨rest, ?_⟩
          rw [sectLoop]
          simp only [hids]
          rw [hrest, intRangeI_succ, List.zip_cons_cons, List.map_cons, List.flatten_cons,
            List.append_assoc]

/-- C7: for a processor state with footnote and sidebar sections present,
page 0 of each section is recovered by the XOR descrambler over the
document's XOR table (no cipher call is involved in that recovery), the
result is scanned as length-prefixed identifier records (1-byte length at
offset 2 of each record, that many identifier bytes at offset 3, `length+4`
bytes per record), and the identifier of the i-th record (i = 1 .. page
count - 1) wraps, as the id attribute, the decrypted and inflated i-th
subsequent page of the section, in page order. -/
theorem c7_ancillary_id_tables (desD : List Nat → List Nat → List Nat)
    (inflate : List Nat → List Nat) (sectRead : Int → List Nat) (st : ProcState)
    (fIds sIds : List Nat) (fL sL : List (List Nat))
    (hfm : 0 < st.cf.numFootnotePages) (hsm : 0 < st.cf.numSidebarPages)
    (hfde : deXOR (sectRead st.cf.firstFootnotePage) 0 st.cf.xortable = some fIds)
    (hfrec : idRecords fIds (st.cf.numFootnotePages - 1) = some fL)
    (hsde : deXOR (sectRead st.cf.firstSidebarPage) 0 st.cf.xortable = some sIds)
    (hsrec : idRecords sIds (st.cf.numSidebarPages - 1) = some sL) :
    getText desD inflate sectRead st = some
      (textBody desD inflate sectRead st ++ [10] ++
        ((fL.zip (intRangeI 1 (st.cf.numFootnotePages - 1))).map
          (fun p => wrapBlock (strB "footnote") p.1
            (inflate (desD (fixKey st.contentKey)
              (sectRead (st.cf.firstFootnotePage + p.2)))))).flatten ++ [10] ++
        ((sL.zip (intRangeI 1 (st.cf.numSidebarPages - 1))).map
          (fun p => wrapBlock (strB "sidebar") p.1
            (inflate (desD (fixKey st.contentKey)
              (sectRead (st.cf.firstSidebarPage + p.2)))))).flatten) := by
  obtain ⟨restF, hF⟩ := sectLoop_records
    (fun i => inflate (desD (fixKey st.contentKey)
      (sectRead (st.cf.firstFootnotePage + i))))
    (strB "footnote") (st.cf.numFootnotePages - 1) fIds fL
    (textBody desD inflate sectRead st ++ [10]) 1 hfrec
  obtain ⟨restS, hS⟩ := sectLoop_records
    (fun i => inflate (desD (fixKey st.contentKey)
      (sectRead (st.cf.firstSidebarPage + i))))
    (strB "sidebar") (st.cf.numSidebarPages - 1) sIds sL
    (textBody desD inflate sectRead st ++ [10] ++
      ((fL.zip (intRangeI 1 (st.cf.numFootnotePages - 1))).map
        (fun p => wrapBlock (strB "footnote") p.1
          (inflate (desD (fixKey st.contentKey)
            (sectRead (st.cf.firstFootnotePage + p.2)))))).flatten ++ [10]) 1 hsrec
  simp only [getText]
  rw [if_pos hfm, hfde]
  simp only []
  rw [hF]
  simp only [Option.map_some']
  rw [if_pos hsm, hsde]
  simp only []
  rw [hS]
  simp only [Option.map_some']

/-- The identity inflate capability used by the C7 witness. -/
def idInflate : List Nat → List Nat := fun d => d

/-- Processor state for the C7 witness: two footnote pages starting at
record 5, two sidebar pages starting at record 7, XOR table `[0]`. -/
def c7st : ProcState :=
  ⟨⟨272, [], [], 13, 0, 0, 0, 2, 5, 2, 7, 0, 1, [0], 1664⟩, [1, 2, 3, 4, 5, 6, 7, 8]⟩

/-- Section reader for the C7 witness: record 5 is the footnote id table
(one record with id "AB"), record 6 the footnote body, record 7 the
sidebar id table (one record with id "Z"), record 8 the sidebar body. -/
def c7sect : Int → List Nat := fun i =>
  if i = 5 then [0, 0, 2, 65, 66, 9]
  else if i = 6 then strB "F1"
  else if i = 7 then [0, 0, 1, 90, 9]
  else if i = 8 then strB "S1"
  else []

/-- C7 witness: on the concrete two-page footnote and sidebar sections the
decoder emits the id-wrapped pages scanned from the descrambled tables. -/
theorem c7_ancillary_id_tables_witness :
    getText idCipher idInflate c7sect c7st =
      some (strB "\n<footnote id=\"AB\">\nF1\n</footnote>\n\n<sidebar id=\"Z\">\nS1\n</sidebar>\n") := by
  have h := c7_ancillary_id_tables idCipher idInflate c7sect c7st
    [0, 0, 2, 65, 66, 9] [0, 0, 1, 90, 9] [[65, 66]] [[90]]
    (by decide) (by decide) (by decide) (by decide) (by decide) (by decide)
  rw [h]
  decide
